import Mathlib

set_option maxHeartbeats 1000000

/-!
# Verification of the `prince` PCA/MCA factor-projection engine

Shallow embedding of `src/prince/pca.py` and `src/prince/mca.py`.

Two complementary embeddings are used:

* a *pipeline* model (`List`-based row-major matrices, dataframes with named
  columns, explicit attribute state and Python-style errors) that follows the
  statement-by-statement control flow of `PCA.fit`, `PCA._scale`,
  `PCA.row_coordinates`, `PCA.fit_transform` and `PCA.inverse_transform`,
  including the order in which `fit` assigns attributes and the places where
  the Python code raises (`NotFittedError`, `AttributeError`, `KeyError`,
  validation and configuration errors);

* a *matrix* model (`Matrix (Fin m) (Fin n) ℝ`) of the numeric formulas of
  `pca.py` (`row_coordinates`, the `fit_transform` fast path, `eigenvalues_`,
  `total_inertia_`, `row_cosine_similarities`, `row_contributions`), proved
  against the contract of the SVD engine.  `svd.compute_svd` itself is not
  part of the provided sources, so its output contract (orthonormal singular
  vectors, non-negative descending singular values, the singular-triplet
  relation) is modelled from the spec and all algebraic theorems are
  quantified over any SVD output satisfying that contract.

`mca.py`'s one-hot re-encoding behaviour is modelled separately with a
computable categorical-table model.
-/

namespace Prince

/-! ## List-level numeric primitives (numpy-style row-major matrices) -/

noncomputable section

/-- Dot product of two numeric vectors, `np.dot` on 1-d arrays. -/
def dotL (a b : List ℝ) : ℝ := (List.zipWith (fun x y => x * y) a b).sum

/-- Number of columns of a row-major matrix (length of the first row). -/
def numColsL (rows : List (List ℝ)) : Nat := (rows.headD []).length

/-- Column `j` of a row-major matrix. -/
def colL (rows : List (List ℝ)) (j : Nat) : List ℝ := rows.map fun r => r.getD j 0

/-- Row-major product `X.dot(V.T)`: `V` is stored with one component per row,
as `svd_.V` is in the source (`pca.py`, `row_coordinates`). -/
def matMulT (X V : List (List ℝ)) : List (List ℝ) :=
  X.map fun r => V.map fun v => dotL r v

/-- Row-major product `np.dot(X, V)` (no transpose), as used by
`PCA.inverse_transform`. -/
def matMul (X V : List (List ℝ)) : List (List ℝ) :=
  X.map fun r => (List.range (numColsL V)).map fun j => dotL r (colL V j)

/-- Sum of squared entries, `np.sum(np.square(X))` (`pca.py`, `fit`). -/
def sumSqL (rows : List (List ℝ)) : ℝ := (rows.map fun r => (r.map fun x => x ^ 2).sum).sum

/-! ## Python-style inputs, errors and the sklearn collaborators -/

/-- A pandas dataframe: named columns over row-major numeric data. -/
structure DataFrame where
  cols : List String
  rows : List (List ℝ)

/-- An argument to the estimator's methods: either a pandas dataframe or a
plain numpy array (which has no `.columns` attribute). -/
inductive PyInput where
  | df (d : DataFrame)
  | arr (rows : List (List ℝ))

/-- The Python exceptions the modelled code can raise. -/
inductive PyError where
  | notFitted
  | validation
  | configuration
  | attributeError
  | keyError
deriving DecidableEq

/-- Rows of an input, `X.to_numpy()` for a dataframe and `X` itself for an
array. -/
def PyInput.toRows : PyInput → List (List ℝ)
  | .df d => d.rows
  | .arr rows => rows

/-- Modelled from the spec (§6, §7): the external `sklearn.utils.check_array`
collaborator rejects empty and ragged input with a validation error before any
computation proceeds. -/
def checkArray (rows : List (List ℝ)) : Except PyError Unit :=
  if rows.length == 0 || numColsL rows == 0
      || !(rows.all fun r => r.length == numColsL rows) then
    .error .validation
  else
    .ok ()

/-- Mean of a list of numbers (per-column statistic of the sklearn scaler). -/
def meanL (xs : List ℝ) : ℝ := xs.sum / xs.length

/-- Population variance of a list of numbers. -/
def varL (xs : List ℝ) : ℝ := ((xs.map fun x => (x - meanL xs) ^ 2).sum) / xs.length

/-- Modelled from the spec (§4.1 and sklearn's documented behaviour): a zero
standard deviation is replaced by 1 so that constant columns pass through
unscaled rather than dividing by zero. -/
def handleZeros (v : ℝ) : ℝ := if v = 0 then 1 else v

/-- State of the external `sklearn.preprocessing.StandardScaler` collaborator,
modelled from the spec (§4.1): per-column mean and scale, with the two
rescaling switches. -/
structure StandardScaler where
  with_mean : Bool
  with_std : Bool
  mean_ : List ℝ
  scale_ : List ℝ

/-- Modelled from the spec (§4.1): `StandardScaler(...).fit(X)` computes the
per-column means and standard deviations of `X`. -/
def StandardScaler.fit (wm ws : Bool) (rows : List (List ℝ)) : StandardScaler :=
  { with_mean := wm
    with_std := ws
    mean_ := (List.range (numColsL rows)).map fun j => meanL (colL rows j)
    scale_ := (List.range (numColsL rows)).map fun j =>
      handleZeros (Real.sqrt (varL (colL rows j))) }

/-- Modelled from the spec (§4.1): `scaler.transform` maps each entry `x` of
column `j` to `(x - mean_[j]) / scale_[j]`, each step toggled by its switch. -/
def StandardScaler.transform (sc : StandardScaler) (rows : List (List ℝ)) :
    List (List ℝ) :=
  rows.map fun r => r.mapIdx fun j x =>
    (x - (if sc.with_mean then sc.mean_.getD j 0 else 0)) /
      (if sc.with_std then sc.scale_.getD j 1 else 1)

/-- Modelled from the spec (§4.1): the exact inverse of
`StandardScaler.transform`. -/
def StandardScaler.inverse_transform (sc : StandardScaler) (rows : List (List ℝ)) :
    List (List ℝ) :=
  rows.map fun r => r.mapIdx fun j x =>
    x * (if sc.with_std then sc.scale_.getD j 1 else 1) +
      (if sc.with_mean then sc.mean_.getD j 0 else 0)

/-! ## The SVD engine contract (pipeline side) -/

/-- The object returned by `svd.compute_svd`: left singular vectors `U`
(row-major, one row per observation), singular values `s`, right singular
vectors `V` (one row per component). -/
structure SVDResult where
  U : List (List ℝ)
  s : List ℝ
  V : List (List ℝ)

/-- An SVD backend as the pipeline sees it: a matrix and a component count in,
either an `SVDResult` or a configuration error out. -/
def SVDEngine : Type := List (List ℝ) → Nat → Except PyError SVDResult

/-- Modelled from the spec (§4.2): `compute_svd` fails with an
invalid-configuration error exactly when `n_components` exceeds
`min(rows, columns)` of its input. -/
def SVDEngineSpec (engine : SVDEngine) : Prop :=
  ∀ X k, (∃ r, engine X k = .ok r) ↔ k ≤ min X.length (numColsL X)

/-- Modelled from the spec (§4.2): a concrete engine satisfying the failure
contract of `compute_svd` (`svd.py` is not part of the provided sources).  The
numeric content of the success payload is a placeholder of the right shape; no
pipeline theorem below inspects it — the algebraic claims are proved in the
matrix model against `IsTruncatedSVD`, quantified over every conforming
output. -/
def specSVDEngine : SVDEngine := fun X k =>
  if k ≤ min X.length (numColsL X) then
    .ok { U := X.map fun _ => List.replicate k 0
          s := List.replicate k 0
          V := List.replicate k (List.replicate (numColsL X) 0) }
  else
    .error .configuration

/-! ## The PCA estimator state and its methods -/

/-- The attribute state of a `PCA` instance.  Constructor parameters
(`n_components`, the two rescale switches, `check_input`) are immutable;
the trailing `Option` fields are the attributes assigned by `fit`
(`feature_names_in_`, `n_features_in_`, `scaler_`, `svd_`, `total_inertia_`),
all absent on a fresh instance.  The constructor parameters `copy`, `n_iter`,
`random_state` and `engine` only select numerical backends or copying
behaviour and are not modelled; `as_array` only chooses the output container
of `inverse_transform` and is modelled as always returning the numeric rows.
The last field models the attribute `V_` that `inverse_transform` reads:
no method of the source ever assigns it. -/
structure PCAState where
  n_components : Nat
  rescale_with_mean : Bool
  rescale_with_std : Bool
  check_input : Bool
  feature_names_in_ : Option (List String)
  n_features_in_ : Option Nat
  scaler_ : Option StandardScaler
  svd_ : Option SVDResult
  total_inertia_ : Option ℝ
  V_ : Option (List (List ℝ))

/-- A freshly constructed `PCA()` with the default parameters of `__init__`:
`n_components=2`, `rescale_with_mean=True`, `rescale_with_std=True`,
`check_input=True`, and no fitted attributes. -/
def PCAState.init : PCAState :=
  { n_components := 2
    rescale_with_mean := true
    rescale_with_std := true
    check_input := true
    feature_names_in_ := none
    n_features_in_ := none
    scaler_ := none
    svd_ := none
    total_inertia_ := none
    V_ := none }

/-- The `_check_is_fitted` gate: `sklearn.utils.validation.check_is_fitted`
passes iff the attribute `total_inertia_` is present. -/
def PCAState.isFitted (st : PCAState) : Bool := st.total_inertia_.isSome

/-- `PCA.fit` (`pca.py` lines 66–97), step by step, with Python exception
semantics: an attribute assignment that happens before a raising step stays
visible on the instance.  The result is the state after the call together
with the exception, if one was raised:

1. a dataframe input records `feature_names_in_` and is converted to a
   numpy array;
2. `_check_input` validates the array when `check_input` is set;
3. `n_features_in_` is recorded;
4. when either rescale switch is set, a `StandardScaler` is fitted, stored
   as `scaler_`, and applied;
5. `svd_` is computed by the engine on the scaled matrix (this is where an
   invalid `n_components` raises);
6. `total_inertia_` is the sum of squared scaled entries over the row count,
   assigned last. -/
def PCA.fit (engine : SVDEngine) (st : PCAState) (X : PyInput) :
    PCAState × Option PyError :=
  let st1 : PCAState :=
    match X with
    | .df d => { st with feature_names_in_ := some d.cols }
    | .arr _ => st
  let M := X.toRows
  match (if st.check_input then checkArray M else .ok ()) with
  | .error e => (st1, some e)
  | .ok _ =>
    let st2 := { st1 with n_features_in_ := some (numColsL M) }
    let scaled :=
      if st.rescale_with_mean || st.rescale_with_std then
        let sc := StandardScaler.fit st.rescale_with_mean st.rescale_with_std M
        ({ st2 with scaler_ := some sc }, sc.transform M)
      else
        (st2, M)
    match engine scaled.2 st.n_components with
    | .error e => (scaled.1, some e)
    | .ok sv =>
      ({ scaled.1 with
          svd_ := some sv
          total_inertia_ := some (sumSqL scaled.2 / (scaled.2.length : ℝ)) }, none)

/-- Column selection `X[names]` on a dataframe: raises `KeyError` when a
requested column is absent, otherwise picks the named columns in the
requested order. -/
def DataFrame.selectCols (d : DataFrame) (names : List String) :
    Except PyError (List (List ℝ)) :=
  if names.all fun nm => d.cols.contains nm then
    .ok (d.rows.map fun r => names.map fun nm =>
      r.getD (d.cols.findIdx fun c => c == nm) 0)
  else
    .error .keyError

/-- `PCA._scale` (`pca.py` lines 106–128).  With no stored scaler the input
passes through.  With a scaler, the code unconditionally reads `X.columns`
(an `AttributeError` on a plain array) and `self.feature_names_in_` (an
`AttributeError` when `fit` saw a plain array).  Columns of `X` outside the
fitted ones are scaled by a freshly fitted `StandardScaler` and concatenated
after the scaler-transformed fitted columns; otherwise the stored scaler is
applied to `X.to_numpy()` positionally. -/
def PCA.scale (st : PCAState) (X : PyInput) : Except PyError (List (List ℝ)) :=
  match st.scaler_ with
  | none => .ok X.toRows
  | some sc =>
    match X with
    | .arr _ => .error .attributeError
    | .df d =>
      match st.feature_names_in_ with
      | none => .error .attributeError
      | some names =>
        let sup := d.cols.filter fun c => !(names.contains c)
        if sup.isEmpty then
          .ok (sc.transform d.rows)
        else
          match d.selectCols names, d.selectCols sup with
          | .ok main, .ok supRows =>
            .ok (List.zipWith (fun a b => a ++ b) (sc.transform main)
              ((StandardScaler.fit st.rescale_with_mean st.rescale_with_std
                supRows).transform supRows))
          | .error e, _ => .error e
          | _, .error e => .error e

/-- The supplementary-variable restriction at the top of
`PCA.row_coordinates` (`pca.py` lines 182–187): when
`ignore_supplementary_variables` is set, `feature_names_in_` exists and the
input is a dataframe, the input is replaced by `X[self.feature_names_in_]`. -/
def PCA.restrictInput (st : PCAState) (X : PyInput) (ignoreSup : Bool) :
    Except PyError PyInput :=
  match ignoreSup, st.feature_names_in_, X with
  | true, some names, .df d =>
    match d.selectCols names with
    | .ok rows => .ok (.df { cols := names, rows := rows })
    | .error e => .error e
  | _, _, x => .ok x

/-- `PCA.row_coordinates` (`pca.py` lines 168–195), with its
`check_is_fitted` decorator: restrict to the fitted columns (by default),
scale, and project onto the right singular vectors via `X.dot(svd_.V.T)`. -/
def PCA.row_coordinates (st : PCAState) (X : PyInput) (ignoreSup : Bool) :
    Except PyError (List (List ℝ)) :=
  if !st.isFitted then .error .notFitted
  else
    match PCA.restrictInput st X ignoreSup with
    | .error e => .error e
    | .ok X1 =>
      match PCA.scale st X1 with
      | .error e => .error e
      | .ok M =>
        match st.svd_ with
        | none => .error .attributeError
        | some sv => .ok (matMulT M sv.V)

/-- The eigenvalues property `eigenvalues_` (`pca.py` lines 130–134) read off
an `SVDResult`: `np.square(s) / len(U)`. -/
def SVDResult.eigenvaluesL (sv : SVDResult) : List ℝ :=
  sv.s.map fun x => x ^ 2 / (sv.U.length : ℝ)

/-- `PCA.fit_transform` (`pca.py` lines 211–228) with its `check_is_fitted`
decorator: the decorator runs first, so an unfitted instance raises before
the internal `self.fit(X)`; on a fitted instance the input is refitted and
the coordinates are read off the fast path
`(U * len(U) ** 0.5) * eigenvalues_ ** 0.5`. -/
def PCA.fit_transform (engine : SVDEngine) (st : PCAState) (X : PyInput) :
    PCAState × Except PyError (List (List ℝ)) :=
  if !st.isFitted then (st, .error .notFitted)
  else
    match PCA.fit engine st X with
    | (st1, some e) => (st1, .error e)
    | (st1, none) =>
      match st1.svd_ with
      | none => (st1, .error .attributeError)
      | some sv =>
        (st1, .ok (sv.U.map fun r => r.mapIdx fun j u =>
          u * Real.sqrt (sv.U.length : ℝ) *
            Real.sqrt (sv.eigenvaluesL.getD j 0)))

/-- `PCA.inverse_transform` (`pca.py` lines 230–248) with its
`check_is_fitted` decorator: computes `np.dot(X, self.V_)` — reading the
attribute `V_`, which no method of the source ever assigns (`fit` stores the
decomposition as `svd_`) — then reverses the stored scaler. -/
def PCA.inverse_transform (st : PCAState) (X : List (List ℝ)) :
    Except PyError (List (List ℝ)) :=
  if !st.isFitted then .error .notFitted
  else
    match st.V_ with
    | none => .error .attributeError
    | some v =>
      let xinv := matMul X v
      .ok (match st.scaler_ with
        | some sc => sc.inverse_transform xinv
        | none => xinv)

end

/-! ## The MCA one-hot encoding model (`mca.py`)

`MCA.fit` one-hot encodes its categorical input with
`pd.get_dummies(X, columns=X.columns)` and fits the underlying CA on the
resulting indicator dataframe; every projection accessor
(`row_coordinates`, `column_coordinates`, the cosine-similarity accessors)
re-encodes its own input with a fresh `pd.get_dummies` call before
delegating (`mca.py` lines 40–52). -/

/-- A categorical table: named columns of string-valued observations. -/
structure CatTable where
  cols : List (String × List String)

/-- First-occurrence deduplication with an accumulator of already-seen
values. -/
def dedupAcc (seen : List String) : List String → List String
  | [] => []
  | x :: xs => if seen.contains x then dedupAcc seen xs else x :: dedupAcc (x :: seen) xs

/-- The distinct categories present in one column's data.  `pd.get_dummies`
lists each column's categories in sorted order; the model keeps
first-occurrence order, which carries the same category *set* — the
properties proved below depend only on that set. -/
def catsOf (values : List String) : List String := dedupAcc [] values

/-- The number of observations of a categorical table. -/
def CatTable.numRows (t : CatTable) : Nat := ((t.cols.headD ("", [])).2).length

/-- The indicator columns produced by `pd.get_dummies(X, columns=X.columns)`:
for each original column `a`, one column `a_c` per category `c` present in
the *supplied* data. -/
def dummyColumns (t : CatTable) : List String :=
  t.cols.flatMap fun p => (catsOf p.2).map fun c => p.1 ++ "_" ++ c

/-- Indicator row for observation `i`: one Boolean per indicator column. -/
def dummyRow (t : CatTable) (i : Nat) : List Bool :=
  t.cols.flatMap fun p => (catsOf p.2).map fun c => p.2.getD i "" == c

/-- A one-hot encoded dataframe: indicator column names and Boolean rows. -/
structure BoolFrame where
  cols : List String
  rows : List (List Bool)

/-- The external `pd.get_dummies(X, columns=X.columns)` collaborator: the
indicator dataframe whose column set is the union of "column_category" pairs
observed in `X` (spec §6, encoding collaborator). -/
def getDummies (t : CatTable) : BoolFrame :=
  { cols := dummyColumns t
    rows := (List.range t.numRows).map fun i => dummyRow t i }

/-- The fitted state of `MCA.fit` (`mca.py` lines 15–38): `K_` is the number
of original categorical columns, `J_` the number of indicator columns, and
`ca_fit_columns` the indicator schema the underlying CA is fitted on.
`ca.py` is not part of the provided sources; modelled from the spec (§4.4),
the CA records the indicator column schema observed at fit time. -/
structure MCAState where
  K_ : Nat
  J_ : Nat
  ca_fit_columns : List String

/-- `MCA.fit` (`mca.py` lines 15–38): records `K_` and `J_` and fits the CA
on `pd.get_dummies(X, columns=X.columns)`. -/
def MCA.fit (t : CatTable) : MCAState :=
  { K_ := t.cols.length
    J_ := (getDummies t).cols.length
    ca_fit_columns := (getDummies t).cols }

/-- The indicator dataframe that `MCA.row_coordinates` (`mca.py` line 41)
passes to the underlying CA: the supplied table is re-encoded by a fresh
`pd.get_dummies(X, columns=X.columns)` call, with no reference to the fitted
state.  `column_coordinates` and both cosine-similarity accessors
(`mca.py` lines 43–52) build their indicator matrix the same way. -/
def MCA.rowCoordinatesEncoding (_st : MCAState) (t : CatTable) : BoolFrame :=
  getDummies t

/-! ## Matrix-level factor model

The numeric formulas of `pca.py`, over `Matrix (Fin m) (Fin n) ℝ`.  `Xs`
always denotes the *scaled* data matrix — the matrix handed to
`svd.compute_svd` by `fit` and reproduced by `_scale` inside every
projection accessor (on the training input, both are
`self.scaler_.transform(X)`), so the fast-path/generic-path comparison and
the diagnostics below are stated directly in terms of it. -/

noncomputable section

variable {m n k : ℕ}

/-- The property `eigenvalues_` (`pca.py` lines 130–134):
`np.square(svd_.s) / len(svd_.U)`, with `len(svd_.U) = m` observations. -/
def eigenvalues (s : Fin k → ℝ) (nObs : ℕ) : Fin k → ℝ :=
  fun j => s j ^ 2 / (nObs : ℝ)

/-- The attribute `total_inertia_` (`pca.py` line 95):
`np.sum(np.square(X)) / len(X)` on the scaled matrix. -/
def totalInertia (Xs : Matrix (Fin m) (Fin n) ℝ) : ℝ :=
  (∑ i, ∑ l, Xs i l ^ 2) / (m : ℝ)

/-- The projection core of `row_coordinates` (`pca.py` line 193):
`X.dot(svd_.V.T)` on the scaled matrix. -/
def rowCoordinates (Xs : Matrix (Fin m) (Fin n) ℝ)
    (V : Matrix (Fin k) (Fin n) ℝ) : Matrix (Fin m) (Fin k) ℝ :=
  Xs * V.transpose

/-- The fast path of `fit_transform` (`pca.py` line 224):
`(svd_.U * len(svd_.U) ** 0.5) * eigenvalues_ ** 0.5`. -/
def fitTransformCoords (U : Matrix (Fin m) (Fin k) ℝ) (s : Fin k → ℝ) :
    Matrix (Fin m) (Fin k) ℝ :=
  fun i j => U i j * Real.sqrt (m : ℝ) * Real.sqrt (eigenvalues s m j)

/-- The formula of `row_cosine_similarities` (`pca.py` lines 260–272):
squared row coordinates divided by each observation's total squared scaled
distance from the origin, `np.square(_scale(X)).sum(axis=1)`. -/
def rowCosineSimilarities (Xs : Matrix (Fin m) (Fin n) ℝ)
    (V : Matrix (Fin k) (Fin n) ℝ) : Matrix (Fin m) (Fin k) ℝ :=
  fun i j => rowCoordinates Xs V i j ^ 2 / (∑ l, Xs i l ^ 2)

/-- The formula of `row_contributions` (`pca.py` line 294):
`(row_coordinates(X) ** 2 / len(X)).div(eigenvalues_, axis=1)`. -/
def rowContributions (Xs : Matrix (Fin m) (Fin n) ℝ)
    (V : Matrix (Fin k) (Fin n) ℝ) (s : Fin k → ℝ) : Matrix (Fin m) (Fin k) ℝ :=
  fun i j => rowCoordinates Xs V i j ^ 2 / (m : ℝ) / eigenvalues s m j

/-- Modelled from the spec (§3, §4.2): the output contract of
`svd.compute_svd` (not part of the provided sources).  A rank-`k` truncated
SVD of the scaled matrix: non-negative singular values ordered descending,
orthonormal columns of `U` and rows of `V`, and the singular-triplet
relation `Xs · Vᵀ = U · diag(s)`. -/
structure IsTruncatedSVD (Xs : Matrix (Fin m) (Fin n) ℝ)
    (U : Matrix (Fin m) (Fin k) ℝ) (s : Fin k → ℝ)
    (V : Matrix (Fin k) (Fin n) ℝ) : Prop where
  s_nonneg : ∀ j, 0 ≤ s j
  s_descending : ∀ j1 j2 : Fin k, j1 ≤ j2 → s j2 ≤ s j1
  U_cols_orthonormal : U.transpose * U = 1
  V_rows_orthonormal : V * V.transpose = 1
  triplet : Xs * V.transpose = U * Matrix.diagonal s

/-! ### Concrete evaluation data

Concrete instances used to evaluate the theorems below on explicit inputs. -/

/-- Concrete scaled data matrix `[[2]]`. -/
def XsW : Matrix (Fin 1) (Fin 1) ℝ := fun _ _ => 2

/-- Concrete left singular vectors `[[1]]`. -/
def UW : Matrix (Fin 1) (Fin 1) ℝ := fun _ _ => 1

/-- Concrete singular values `(2)`. -/
def sW : Fin 1 → ℝ := fun _ => 2

/-- Concrete right singular vectors `[[1]]`. -/
def VW : Matrix (Fin 1) (Fin 1) ℝ := fun _ _ => 1

/-- A concrete 2×2 training dataframe with columns `a`, `b`. -/
def dfTrain : DataFrame := { cols := ["a", "b"], rows := [[1, 2], [3, 4]] }

/-- A concrete dataframe with columns but no observations (empty input). -/
def dfEmpty : DataFrame := { cols := ["a", "b"], rows := [] }

/-- The state of a default `PCA()` after a successful `fit` on `dfTrain`. -/
def stFitted : PCAState := (PCA.fit specSVDEngine PCAState.init (.df dfTrain)).1

/-- The state of a default `PCA()` after a successful `fit` on the plain
numpy array `[[1, 2], [3, 4]]` (no column names recorded). -/
def stArrFitted : PCAState :=
  (PCA.fit specSVDEngine PCAState.init (.arr [[1, 2], [3, 4]])).1

/-- A concrete categorical table: one column `x` with categories `a`, `b`. -/
def mcaFitTable : CatTable := { cols := [("x", ["a", "b"])] }

/-- A supplementary categorical table: one row whose category `c` of column
`x` was unseen at fit time. -/
def mcaNewTable : CatTable := { cols := [("x", ["c"])] }

/-! ### Orthonormal-family computations -/

/-- Entrywise form of `V * Vᵀ = 1`: the rows of `V` are orthonormal. -/
lemma rows_orthonormal_inner {V : Matrix (Fin k) (Fin n) ℝ}
    (h : V * V.transpose = 1) (j1 j2 : Fin k) :
    (∑ l, V j1 l * V j2 l) = if j1 = j2 then (1 : ℝ) else 0 := by
  have h2 := congrFun (congrFun h j1) j2
  simpa [Matrix.mul_apply, Matrix.transpose_apply, Matrix.one_apply] using h2

/-- Entrywise form of `Uᵀ * U = 1`: each column of `U` has unit norm. -/
lemma cols_orthonormal_normSq {U : Matrix (Fin m) (Fin k) ℝ}
    (h : U.transpose * U = 1) (j : Fin k) :
    (∑ i, U i j * U i j) = 1 := by
  have h2 := congrFun (congrFun h j) j
  simpa [Matrix.mul_apply, Matrix.transpose_apply, Matrix.one_apply] using h2

/-- Swapping a weighted sum against the projection coefficients. -/
lemma sum_mul_proj (V : Matrix (Fin k) (Fin n) ℝ) (x : Fin n → ℝ)
    (c : Fin k → ℝ) :
    (∑ l, x l * ∑ j, c j * V j l) = ∑ j, c j * ∑ l, x l * V j l := by
  calc (∑ l, x l * ∑ j, c j * V j l)
      = ∑ l, ∑ j, c j * (x l * V j l) := by
        refine Finset.sum_congr rfl fun l _ => ?_
        rw [Finset.mul_sum]
        exact Finset.sum_congr rfl fun j _ => by ring
    _ = ∑ j, ∑ l, c j * (x l * V j l) := Finset.sum_comm
    _ = ∑ j, c j * ∑ l, x l * V j l := by
        refine Finset.sum_congr rfl fun j _ => ?_
        rw [Finset.mul_sum]

/-- Norm of a vector in the span of orthonormal rows: Parseval for an
explicit linear combination. -/
lemma normSq_of_span {V : Matrix (Fin k) (Fin n) ℝ}
    (hV : ∀ j1 j2 : Fin k, (∑ l, V j1 l * V j2 l) = if j1 = j2 then (1 : ℝ) else 0)
    (a : Fin k → ℝ) :
    (∑ l, (∑ j, a j * V j l) ^ 2) = ∑ j, a j ^ 2 := by
  calc (∑ l, (∑ j, a j * V j l) ^ 2)
      = ∑ l, ∑ j, ∑ j', (a j * a j') * (V j l * V j' l) := by
        refine Finset.sum_congr rfl fun l _ => ?_
        rw [sq, Finset.sum_mul_sum]
        exact Finset.sum_congr rfl fun j _ =>
          Finset.sum_congr rfl fun j' _ => by ring
    _ = ∑ j, ∑ j', (a j * a j') * ∑ l, V j l * V j' l := by
        rw [Finset.sum_comm]
        refine Finset.sum_congr rfl fun j _ => ?_
        rw [Finset.sum_comm]
        refine Finset.sum_congr rfl fun j' _ => ?_
        rw [Finset.mul_sum]
    _ = ∑ j, a j ^ 2 := by
        refine Finset.sum_congr rfl fun j _ => ?_
        simp only [hV, mul_ite, mul_one, mul_zero]
        rw [Finset.sum_ite_eq Finset.univ j (fun j' => a j * a j')]
        simp [sq]

/-- The coordinate of an explicit linear combination of orthonormal rows
along one of them recovers its coefficient. -/
lemma coeff_of_span {V : Matrix (Fin k) (Fin n) ℝ}
    (hV : ∀ j1 j2 : Fin k, (∑ l, V j1 l * V j2 l) = if j1 = j2 then (1 : ℝ) else 0)
    (a : Fin k → ℝ) (j0 : Fin k) :
    (∑ t, (∑ j, a j * V j t) * V j0 t) = a j0 := by
  calc (∑ t, (∑ j, a j * V j t) * V j0 t)
      = ∑ t, (V j0 t) * ∑ j, a j * V j t := by
        exact Finset.sum_congr rfl fun t _ => by ring
    _ = ∑ j, a j * ∑ t, V j0 t * V j t := sum_mul_proj V (fun t => V j0 t) a
    _ = a j0 := by
        have hsymm : ∀ j, (∑ t, V j0 t * V j t) = if j = j0 then (1 : ℝ) else 0 := by
          intro j
          rw [show (∑ t, V j0 t * V j t) = ∑ t, V j t * V j0 t from
            Finset.sum_congr rfl fun t _ => mul_comm _ _]
          rw [hV j j0]
        simp only [hsymm, mul_ite, mul_one, mul_zero]
        rw [Finset.sum_ite_eq' Finset.univ j0 (fun j => a j)]
        simp

/-- Squared distance from a vector to its projection on orthonormal rows. -/
lemma sub_proj_normSq {V : Matrix (Fin k) (Fin n) ℝ}
    (hV : ∀ j1 j2 : Fin k, (∑ l, V j1 l * V j2 l) = if j1 = j2 then (1 : ℝ) else 0)
    (x : Fin n → ℝ) :
    (∑ l, (x l - ∑ j, (∑ t, x t * V j t) * V j l) ^ 2)
      = (∑ l, x l ^ 2) - ∑ j, (∑ t, x t * V j t) ^ 2 := by
  set c : Fin k → ℝ := fun j => ∑ t, x t * V j t with hc
  have hmid : (∑ l, x l * ∑ j, c j * V j l) = ∑ j, c j ^ 2 := by
    rw [sum_mul_proj V x c]
    exact Finset.sum_congr rfl fun j _ => by rw [hc, sq]
  have hsq : (∑ l, (∑ j, c j * V j l) ^ 2) = ∑ j, c j ^ 2 := normSq_of_span hV c
  calc (∑ l, (x l - ∑ j, c j * V j l) ^ 2)
      = ∑ l, (x l ^ 2 - 2 * (x l * ∑ j, c j * V j l) + (∑ j, c j * V j l) ^ 2) := by
        exact Finset.sum_congr rfl fun l _ => by ring
    _ = (∑ l, x l ^ 2) - 2 * (∑ l, x l * ∑ j, c j * V j l)
          + ∑ l, (∑ j, c j * V j l) ^ 2 := by
        rw [Finset.sum_add_distrib, Finset.sum_sub_distrib, Finset.mul_sum]
    _ = (∑ l, x l ^ 2) - ∑ j, c j ^ 2 := by rw [hmid, hsq]; ring

/-- Bessel's inequality for the orthonormal rows of `V`. -/
lemma bessel {V : Matrix (Fin k) (Fin n) ℝ}
    (hV : ∀ j1 j2 : Fin k, (∑ l, V j1 l * V j2 l) = if j1 = j2 then (1 : ℝ) else 0)
    (x : Fin n → ℝ) :
    (∑ j, (∑ t, x t * V j t) ^ 2) ≤ ∑ l, x l ^ 2 := by
  have h := sub_proj_normSq hV x
  have h0 : (0 : ℝ) ≤ ∑ l, (x l - ∑ t, (∑ t', x t' * V t t') * V t l) ^ 2 :=
    Finset.sum_nonneg fun l _ => sq_nonneg _
  linarith

/-- The entrywise content of the singular-triplet relation: the generic
projection `Xs · Vᵀ` evaluates to `U · diag(s)`. -/
lemma rowCoordinates_entry {Xs : Matrix (Fin m) (Fin n) ℝ}
    {U : Matrix (Fin m) (Fin k) ℝ} {s : Fin k → ℝ} {V : Matrix (Fin k) (Fin n) ℝ}
    (hsvd : IsTruncatedSVD Xs U s V) (i : Fin m) (j : Fin k) :
    rowCoordinates Xs V i j = U i j * s j := by
  unfold rowCoordinates
  rw [hsvd.triplet, Matrix.mul_diagonal]

/-- Row coordinates as explicit sums against the rows of `V`. -/
lemma rowCoordinates_sum (Xs : Matrix (Fin m) (Fin n) ℝ)
    (V : Matrix (Fin k) (Fin n) ℝ) (i : Fin m) (j : Fin k) :
    rowCoordinates Xs V i j = ∑ l, Xs i l * V j l := by
  simp [rowCoordinates, Matrix.mul_apply, Matrix.transpose_apply]

/-- Entrywise content of the full-rank factorization `Xs = U · diag(s) · V`:
each row of `Xs` is the combination of the rows of `V` with coefficients
`U i j * s j`. -/
lemma row_of_factorization {Xs : Matrix (Fin m) (Fin n) ℝ}
    {U : Matrix (Fin m) (Fin k) ℝ} {s : Fin k → ℝ} {V : Matrix (Fin k) (Fin n) ℝ}
    (hX : Xs = U * Matrix.diagonal s * V) (i : Fin m) (l : Fin n) :
    Xs i l = ∑ j, (U i j * s j) * V j l := by
  rw [hX]
  rw [Matrix.mul_apply]
  exact Finset.sum_congr rfl fun j _ => by rw [Matrix.mul_diagonal]

/-! ### The algebraic claims -/

/-- C1: for every numeric table with no missing values, the `fit_transform`
fast path computed from `U` and the eigenvalues
(`(U * len(U) ** 0.5) * eigenvalues_ ** 0.5`, `pca.py` line 224) equals the
generic projection `X_scaled · Vᵀ` of `row_coordinates` (`pca.py` line 193)
on the training set, for any SVD-engine output satisfying its contract on
the scaled training matrix.  Both code paths consume the same scaled matrix:
`fit` stores the scaler it applies before the SVD, and `row_coordinates`
re-applies that stored scaler to the training input. -/
theorem C1_fit_transform_matches_row_coordinates
    {m n k : ℕ} (Xs : Matrix (Fin m) (Fin n) ℝ) (U : Matrix (Fin m) (Fin k) ℝ)
    (s : Fin k → ℝ) (V : Matrix (Fin k) (Fin n) ℝ)
    (hsvd : IsTruncatedSVD Xs U s V) (hm : 0 < m) :
    fitTransformCoords U s = rowCoordinates Xs V := by
  funext i j
  rw [rowCoordinates_entry hsvd i j]
  unfold fitTransformCoords eigenvalues
  rw [Real.sqrt_div (sq_nonneg (s j)), Real.sqrt_sq (hsvd.s_nonneg j)]
  have hmR : (0 : ℝ) < (m : ℝ) := by exact_mod_cast hm
  have hm0 : Real.sqrt (m : ℝ) ≠ 0 := ne_of_gt (Real.sqrt_pos.mpr hmR)
  field_simp
  ring

/-- C3: the eigenvalues are `s² / n_observations` (`pca.py` line 134), they
are non-negative and ordered descending, their sum is at most
`total_inertia_` (`pca.py` line 95), and — when the retained decomposition
reproduces the scaled matrix exactly, which is the
`n_components == min(n_rows, n_features)` full-rank case — the sum equals
the total inertia. -/
theorem C3_eigenvalue_structure
    {m n k : ℕ} (Xs : Matrix (Fin m) (Fin n) ℝ) (U : Matrix (Fin m) (Fin k) ℝ)
    (s : Fin k → ℝ) (V : Matrix (Fin k) (Fin n) ℝ)
    (hsvd : IsTruncatedSVD Xs U s V) (hm : 0 < m) :
    (∀ j, eigenvalues s m j = s j ^ 2 / (m : ℝ))
    ∧ (∀ j, 0 ≤ eigenvalues s m j)
    ∧ (∀ j1 j2 : Fin k, j1 ≤ j2 → eigenvalues s m j2 ≤ eigenvalues s m j1)
    ∧ ((∑ j, eigenvalues s m j) ≤ totalInertia Xs)
    ∧ (Xs = U * Matrix.diagonal s * V → (∑ j, eigenvalues s m j) = totalInertia Xs) := by
  have hmR : (0 : ℝ) < (m : ℝ) := by exact_mod_cast hm
  have hV := rows_orthonormal_inner hsvd.V_rows_orthonormal
  have hEigSum : (∑ j, eigenvalues s m j) = (∑ j, s j ^ 2) / (m : ℝ) := by
    rw [Finset.sum_div]; rfl
  have hNormCols : (∑ i, ∑ j, (U i j * s j) ^ 2) = ∑ j, s j ^ 2 := by
    rw [Finset.sum_comm]
    refine Finset.sum_congr rfl fun j _ => ?_
    have h1 : (∑ i, (U i j * s j) ^ 2) = (∑ i, U i j * U i j) * s j ^ 2 := by
      rw [Finset.sum_mul]
      exact Finset.sum_congr rfl fun i _ => by ring
    rw [h1, cols_orthonormal_normSq hsvd.U_cols_orthonormal j, one_mul]
  refine ⟨fun j => rfl, ?_, ?_, ?_, ?_⟩
  · intro j
    exact div_nonneg (sq_nonneg _) (le_of_lt hmR)
  · intro j1 j2 h12
    unfold eigenvalues
    have : s j2 ^ 2 ≤ s j1 ^ 2 :=
      pow_le_pow_left₀ (hsvd.s_nonneg j2) (hsvd.s_descending j1 j2 h12) 2
    exact div_le_div_of_nonneg_right this hmR.le
  · rw [hEigSum]
    unfold totalInertia
    refine div_le_div_of_nonneg_right ?_ hmR.le
    rw [← hNormCols]
    refine Finset.sum_le_sum fun i _ => ?_
    have hb := bessel hV (Xs i)
    calc (∑ j, (U i j * s j) ^ 2)
        = ∑ j, (∑ t, Xs i t * V j t) ^ 2 := by
          refine Finset.sum_congr rfl fun j _ => ?_
          rw [← rowCoordinates_sum Xs V i j, rowCoordinates_entry hsvd i j]
      _ ≤ ∑ l, Xs i l ^ 2 := hb
  · intro hX
    rw [hEigSum]
    unfold totalInertia
    have hRows : (∑ i, ∑ l, Xs i l ^ 2) = ∑ j, s j ^ 2 := by
      rw [← hNormCols]
      refine Finset.sum_congr rfl fun i _ => ?_
      have hrow : ∀ l, Xs i l = ∑ j, (U i j * s j) * V j l := row_of_factorization hX i
      calc (∑ l, Xs i l ^ 2)
          = ∑ l, (∑ j, (U i j * s j) * V j l) ^ 2 :=
            Finset.sum_congr rfl fun l _ => by rw [hrow l]
        _ = ∑ j, (U i j * s j) ^ 2 := normSq_of_span hV fun j => U i j * s j
    rw [hRows]

/-- C5: each row contribution is the squared row principal coordinate over
`n_observations · eigenvalue` (`pca.py` line 294, with `len(X)` equal to the
observation count on the training set), and over the training observations
each component's contributions sum to 1, provided the component's singular
value is nonzero (a zero singular value makes the Python expression a
division of zero by zero). -/
theorem C5_row_contributions_sum_to_one
    {m n k : ℕ} (Xs : Matrix (Fin m) (Fin n) ℝ) (U : Matrix (Fin m) (Fin k) ℝ)
    (s : Fin k → ℝ) (V : Matrix (Fin k) (Fin n) ℝ)
    (hsvd : IsTruncatedSVD Xs U s V) (hm : 0 < m) (j : Fin k) (hs : s j ≠ 0) :
    (∀ i, rowContributions Xs V s i j
        = rowCoordinates Xs V i j ^ 2 / ((m : ℝ) * eigenvalues s m j))
    ∧ (∑ i, rowContributions Xs V s i j) = 1 := by
  have hmR : (0 : ℝ) < (m : ℝ) := by exact_mod_cast hm
  constructor
  · intro i
    unfold rowContributions
    rw [div_div]
  · have hterm : ∀ i, rowContributions Xs V s i j
        = (U i j * s j) ^ 2 / (m : ℝ) / eigenvalues s m j := by
      intro i
      unfold rowContributions
      rw [rowCoordinates_entry hsvd i j]
    have hsum : (∑ i, (U i j * s j) ^ 2) = s j ^ 2 := by
      have h1 : (∑ i, (U i j * s j) ^ 2) = (∑ i, U i j * U i j) * s j ^ 2 := by
        rw [Finset.sum_mul]
        exact Finset.sum_congr rfl fun i _ => by ring
      rw [h1, cols_orthonormal_normSq hsvd.U_cols_orthonormal j, one_mul]
    calc (∑ i, rowContributions Xs V s i j)
        = ∑ i, (U i j * s j) ^ 2 / (m : ℝ) / eigenvalues s m j :=
          Finset.sum_congr rfl fun i _ => hterm i
      _ = ((∑ i, (U i j * s j) ^ 2) / (m : ℝ)) / eigenvalues s m j := by
          rw [Finset.sum_div, Finset.sum_div]
      _ = (s j ^ 2 / (m : ℝ)) / (s j ^ 2 / (m : ℝ)) := by rw [hsum]; rfl
      _ = 1 := div_self (div_ne_zero (pow_ne_zero 2 hs) (ne_of_gt hmR))

/-- C6: every `row_cosine_similarities` entry (`pca.py` lines 260–272) lies
in `[0, 1]`, the sum over the retained components of any observation is at
most 1, and when the retained decomposition reproduces the scaled matrix
exactly (all components retained) the sum equals 1 for every observation at
nonzero scaled distance from the origin (at zero distance the Python
expression is 0/0). -/
theorem C6_row_cosine_similarity_bounds
    {m n k : ℕ} (Xs : Matrix (Fin m) (Fin n) ℝ) (U : Matrix (Fin m) (Fin k) ℝ)
    (s : Fin k → ℝ) (V : Matrix (Fin k) (Fin n) ℝ)
    (hsvd : IsTruncatedSVD Xs U s V) :
    (∀ i j, 0 ≤ rowCosineSimilarities Xs V i j ∧ rowCosineSimilarities Xs V i j ≤ 1)
    ∧ (∀ i, (∑ j, rowCosineSimilarities Xs V i j) ≤ 1)
    ∧ (Xs = U * Matrix.diagonal s * V →
        ∀ i, (∑ l, Xs i l ^ 2) ≠ 0 → (∑ j, rowCosineSimilarities Xs V i j) = 1) := by
  have hV := rows_orthonormal_inner hsvd.V_rows_orthonormal
  have hQ0 : ∀ i, (0 : ℝ) ≤ ∑ l, Xs i l ^ 2 :=
    fun i => Finset.sum_nonneg fun l _ => sq_nonneg _
  have hb : ∀ i, (∑ j, rowCoordinates Xs V i j ^ 2) ≤ ∑ l, Xs i l ^ 2 := by
    intro i
    calc (∑ j, rowCoordinates Xs V i j ^ 2)
        = ∑ j, (∑ t, Xs i t * V j t) ^ 2 :=
          Finset.sum_congr rfl fun j _ => by rw [rowCoordinates_sum Xs V i j]
      _ ≤ ∑ l, Xs i l ^ 2 := bessel hV (Xs i)
  refine ⟨?_, ?_, ?_⟩
  · intro i j
    constructor
    · exact div_nonneg (sq_nonneg _) (hQ0 i)
    · refine div_le_one_of_le₀ ?_ (hQ0 i)
      exact le_trans
        (Finset.single_le_sum (fun j' _ => sq_nonneg (rowCoordinates Xs V i j'))
          (Finset.mem_univ j)) (hb i)
  · intro i
    unfold rowCosineSimilarities
    rw [← Finset.sum_div]
    exact div_le_one_of_le₀ (hb i) (hQ0 i)
  · intro hX i hQ
    have hrow : ∀ l, Xs i l = ∑ j, (U i j * s j) * V j l := row_of_factorization hX i
    have hcoeff : ∀ j, rowCoordinates Xs V i j = U i j * s j := by
      intro j
      rw [rowCoordinates_sum Xs V i j]
      calc (∑ l, Xs i l * V j l)
          = ∑ l, (∑ j', (U i j' * s j') * V j' l) * V j l :=
            Finset.sum_congr rfl fun l _ => by rw [hrow l]
        _ = U i j * s j := coeff_of_span hV (fun j' => U i j' * s j') j
    have hQval : (∑ l, Xs i l ^ 2) = ∑ j, (U i j * s j) ^ 2 := by
      calc (∑ l, Xs i l ^ 2)
          = ∑ l, (∑ j, (U i j * s j) * V j l) ^ 2 :=
            Finset.sum_congr rfl fun l _ => by rw [hrow l]
        _ = ∑ j, (U i j * s j) ^ 2 := normSq_of_span hV fun j => U i j * s j
    unfold rowCosineSimilarities
    rw [← Finset.sum_div]
    have hnum : (∑ j, rowCoordinates Xs V i j ^ 2) = ∑ l, Xs i l ^ 2 := by
      rw [hQval]
      exact Finset.sum_congr rfl fun j _ => by rw [hcoeff j]
    rw [hnum]
    exact div_self hQ

/-! ### A concrete SVD instance for evaluating the algebraic theorems -/

/-- The concrete instance satisfies the SVD-engine contract. -/
lemma isTruncatedSVD_W : IsTruncatedSVD XsW UW sW VW := by
  refine ⟨?_, ?_, ?_, ?_, ?_⟩
  · intro j
    norm_num [sW]
  · intro j1 j2 _
    norm_num [sW]
  · funext i j
    fin_cases i; fin_cases j
    simp [UW, Matrix.mul_apply, Matrix.transpose_apply, Matrix.one_apply,
        Fin.sum_univ_one]
  · funext i j
    fin_cases i; fin_cases j
    simp [VW, Matrix.mul_apply, Matrix.transpose_apply, Matrix.one_apply,
        Fin.sum_univ_one]
  · funext i j
    fin_cases i; fin_cases j
    simp [XsW, UW, sW, VW, Matrix.mul_apply, Matrix.transpose_apply,
        Matrix.diagonal, Fin.sum_univ_one]

/-- The concrete instance is an exact (full-rank) factorization. -/
lemma factorization_W : XsW = UW * Matrix.diagonal sW * VW := by
  funext i j
  fin_cases i; fin_cases j
  simp [XsW, UW, sW, VW, Matrix.mul_apply, Matrix.transpose_apply,
      Matrix.diagonal, Fin.sum_univ_one]

/-- Witness for C1: the theorem's hypotheses hold and its conclusion follows
at the concrete SVD instance. -/
theorem C1_fit_transform_matches_row_coordinates_witness :
    IsTruncatedSVD XsW UW sW VW ∧ 0 < 1
    ∧ fitTransformCoords UW sW = rowCoordinates XsW VW :=
  ⟨isTruncatedSVD_W, Nat.one_pos,
    C1_fit_transform_matches_row_coordinates XsW UW sW VW isTruncatedSVD_W Nat.one_pos⟩

/-- Witness for C3: the theorem's hypotheses hold and its conclusion follows
at the concrete SVD instance. -/
theorem C3_eigenvalue_structure_witness :
    IsTruncatedSVD XsW UW sW VW ∧ 0 < 1
    ∧ ((∀ j, eigenvalues sW 1 j = sW j ^ 2 / ((1 : ℕ) : ℝ))
      ∧ (∀ j, 0 ≤ eigenvalues sW 1 j)
      ∧ (∀ j1 j2 : Fin 1, j1 ≤ j2 → eigenvalues sW 1 j2 ≤ eigenvalues sW 1 j1)
      ∧ ((∑ j, eigenvalues sW 1 j) ≤ totalInertia XsW)
      ∧ (XsW = UW * Matrix.diagonal sW * VW →
          (∑ j, eigenvalues sW 1 j) = totalInertia XsW)) :=
  ⟨isTruncatedSVD_W, Nat.one_pos,
    C3_eigenvalue_structure XsW UW sW VW isTruncatedSVD_W Nat.one_pos⟩

/-- Witness for C5: the theorem's hypotheses hold and its conclusion follows
at the concrete SVD instance and its single component. -/
theorem C5_row_contributions_sum_to_one_witness :
    IsTruncatedSVD XsW UW sW VW ∧ 0 < 1 ∧ sW 0 ≠ 0
    ∧ ((∀ i, rowContributions XsW VW sW i 0
        = rowCoordinates XsW VW i 0 ^ 2 / (((1 : ℕ) : ℝ) * eigenvalues sW 1 0))
      ∧ (∑ i, rowContributions XsW VW sW i 0) = 1) :=
  ⟨isTruncatedSVD_W, Nat.one_pos, by norm_num [sW],
    C5_row_contributions_sum_to_one XsW UW sW VW isTruncatedSVD_W Nat.one_pos 0
      (by norm_num [sW])⟩

/-- Witness for C6: the theorem's hypothesis holds and its conclusion follows
at the concrete SVD instance. -/
theorem C6_row_cosine_similarity_bounds_witness :
    IsTruncatedSVD XsW UW sW VW
    ∧ ((∀ i j, 0 ≤ rowCosineSimilarities XsW VW i j
          ∧ rowCosineSimilarities XsW VW i j ≤ 1)
      ∧ (∀ i, (∑ j, rowCosineSimilarities XsW VW i j) ≤ 1)
      ∧ (XsW = UW * Matrix.diagonal sW * VW →
          ∀ i, (∑ l, XsW i l ^ 2) ≠ 0 →
            (∑ j, rowCosineSimilarities XsW VW i j) = 1)) :=
  ⟨isTruncatedSVD_W, C6_row_cosine_similarity_bounds XsW UW sW VW isTruncatedSVD_W⟩

/-! ### List helpers for the supplementary-column scenario -/

/-- Membership gives a true `contains` test. -/
lemma contains_of_mem {l : List String} {a : String} (h : a ∈ l) :
    l.contains a = true := List.elem_iff.mpr h

/-- The index of a fitted column name is not changed by appending an extra
column to the dataframe's schema. -/
lemma findIdx_append_of_mem {names : List String} {nm : String}
    (h : nm ∈ names) (rest : List String) :
    (names ++ rest).findIdx (fun c => c == nm) = names.findIdx (fun c => c == nm) := by
  rw [List.findIdx_append]
  have hlt : names.findIdx (fun c => c == nm) < names.length :=
    List.findIdx_lt_length_of_exists ⟨nm, h, by simp⟩
  simp [hlt]

/-- Applying a row transformation after appending one value per row is the
same as applying its restriction, when the transformation ignores the
appended entry. -/
lemma zipWith_append_map (R : List (List ℝ)) (extra : List ℝ)
    (f g : List ℝ → List ℝ)
    (hpt : ∀ r ∈ R, ∀ v, f (r ++ [v]) = g r)
    (hel : extra.length = R.length) :
    List.zipWith (fun r v => f (r ++ [v])) R extra = R.map g := by
  induction R generalizing extra with
  | nil => simp
  | cons r rs ih =>
    cases extra with
    | nil => simp at hel
    | cons v vs =>
      simp only [List.zipWith_cons_cons, List.map_cons]
      rw [hpt r (List.mem_cons_self r rs) v,
        ih vs (fun r' h v' => hpt r' (List.mem_cons_of_mem _ h) v')
          (by simpa using hel)]

/-- Selecting the fitted columns from a dataframe carrying one extra column
yields the same data as selecting them from the dataframe without it. -/
lemma selectCols_append_extra (names : List String) (cname : String)
    (R : List (List ℝ)) (extra : List ℝ)
    (hlen : ∀ r ∈ R, r.length = names.length)
    (hel : extra.length = R.length) :
    DataFrame.selectCols
        { cols := names ++ [cname], rows := List.zipWith (fun r v => r ++ [v]) R extra }
        names
      = DataFrame.selectCols { cols := names, rows := R } names := by
  have hcondSmall : (names.all fun nm => names.contains nm) = true :=
    List.all_eq_true.mpr fun nm h => contains_of_mem h
  have hcondBig : (names.all fun nm => (names ++ [cname]).contains nm) = true :=
    List.all_eq_true.mpr fun nm h => contains_of_mem (List.mem_append_left _ h)
  unfold DataFrame.selectCols
  simp only [hcondSmall, hcondBig, if_true]
  congr 1
  rw [List.map_zipWith]
  refine zipWith_append_map R extra
    (fun row => names.map fun nm =>
      row.getD ((names ++ [cname]).findIdx fun c => c == nm) 0)
    (fun row => names.map fun nm =>
      row.getD (names.findIdx fun c => c == nm) 0) ?_ hel
  intro r hr v
  refine List.map_congr_left fun nm hnm => ?_
  rw [findIdx_append_of_mem hnm [cname]]
  have hlt : names.findIdx (fun c => c == nm) < names.length :=
    List.findIdx_lt_length_of_exists ⟨nm, hnm, by simp⟩
  exact List.getD_append r [v] 0 _ (by rw [hlen r hr]; exact hlt)

/-! ### The pipeline claims -/

/-- C7: for a PCA fitted on named columns, calling `row_coordinates` under
the default ignore-supplementary behaviour on a dataframe carrying one extra
unseen column returns exactly the coordinates obtained without that column,
and does not raise; the unseen column is dropped before scaling and
projecting (the stored scaler is read but never replaced — the model's
accessors return values without touching the state). -/
theorem C7_unseen_column_is_dropped
    (st : PCAState) (sv : SVDResult) (names : List String) (cname : String)
    (R : List (List ℝ)) (extra : List ℝ)
    (hfit : st.isFitted = true)
    (hnames : st.feature_names_in_ = some names)
    (hsvd : st.svd_ = some sv)
    (_hcn : names.contains cname = false)
    (hlen : ∀ r ∈ R, r.length = names.length)
    (hel : extra.length = R.length) :
    PCA.row_coordinates st
        (.df { cols := names ++ [cname],
               rows := List.zipWith (fun r v => r ++ [v]) R extra }) true
      = PCA.row_coordinates st (.df { cols := names, rows := R }) true
    ∧ ∃ out, PCA.row_coordinates st (.df { cols := names, rows := R }) true
        = .ok out := by
  have hsel := selectCols_append_extra names cname R extra hlen hel
  have hrestr : PCA.restrictInput st
      (.df { cols := names ++ [cname],
             rows := List.zipWith (fun r v => r ++ [v]) R extra }) true
      = PCA.restrictInput st (.df { cols := names, rows := R }) true := by
    simp only [PCA.restrictInput, hnames, hsel]
  constructor
  · unfold PCA.row_coordinates
    rw [hrestr]
  · have hcondSmall : (names.all fun nm => names.contains nm) = true :=
      List.all_eq_true.mpr fun nm h => contains_of_mem h
    have hselSmall : DataFrame.selectCols { cols := names, rows := R } names
        = .ok (R.map fun r => names.map fun nm =>
            r.getD (names.findIdx fun c => c == nm) 0) := by
      unfold DataFrame.selectCols
      simp only [hcondSmall, if_true]
    have hfil : names.filter (fun c => !(names.contains c)) = [] :=
      List.filter_eq_nil_iff.mpr fun a ha => by simp [contains_of_mem ha, ha]
    cases hsc : st.scaler_ with
    | none =>
      refine ⟨matMulT (R.map fun r => names.map fun nm =>
          r.getD (names.findIdx fun c => c == nm) 0) sv.V, ?_⟩
      simp [PCA.row_coordinates, hfit, PCA.restrictInput, hnames, hselSmall,
        PCA.scale, hsc, hsvd, PyInput.toRows]
    | some sc =>
      refine ⟨matMulT (sc.transform (R.map fun r => names.map fun nm =>
          r.getD (names.findIdx fun c => c == nm) 0)) sv.V, ?_⟩
      simp [PCA.row_coordinates, hfit, PCA.restrictInput, hnames, hselSmall,
        PCA.scale, hsc, hsvd, hfil]

/-- Witness for C7: the theorem's hypotheses hold and its conclusion follows
at a concretely fitted model and a concrete table with an extra column. -/
theorem C7_unseen_column_is_dropped_witness :
    stFitted.isFitted = true
    ∧ stFitted.feature_names_in_ = some ["a", "b"]
    ∧ (["a", "b"].contains "c") = false
    ∧ (PCA.row_coordinates stFitted
          (.df { cols := ["a", "b"] ++ ["c"],
                 rows := List.zipWith (fun r v => r ++ [v]) [[5, 6]] [9] }) true
        = PCA.row_coordinates stFitted (.df { cols := ["a", "b"], rows := [[5, 6]] }) true
      ∧ ∃ out, PCA.row_coordinates stFitted
          (.df { cols := ["a", "b"], rows := [[5, 6]] }) true = .ok out) := by
  refine ⟨rfl, rfl, rfl, ?_⟩
  exact C7_unseen_column_is_dropped stFitted
    { U := [[0, 0], [0, 0]], s := [0, 0], V := [[0, 0], [0, 0]] }
    ["a", "b"] "c" [[5, 6]] [9] rfl rfl rfl rfl
    (by intro r hr; simp only [List.mem_singleton] at hr; rw [hr]; rfl) rfl

/-- C9: `fit_transform` is wrapped by the fitted-state check decorator, so on
a never-fitted instance it raises a not-fitted error before the internal
`fit(X)` call runs, and the state is unchanged. -/
theorem C9_fit_transform_requires_fitted_instance
    (engine : SVDEngine) (st : PCAState) (X : PyInput)
    (h : st.total_inertia_ = none) :
    PCA.fit_transform engine st X = (st, .error .notFitted) := by
  unfold PCA.fit_transform PCAState.isFitted
  rw [h]
  rfl

/-- Witness for C9: the theorem's hypothesis holds and its conclusion follows
on a freshly constructed instance. -/
theorem C9_fit_transform_requires_fitted_instance_witness :
    PCAState.init.total_inertia_ = none
    ∧ PCA.fit_transform specSVDEngine PCAState.init (.arr [[1]])
        = (PCAState.init, .error .notFitted) :=
  ⟨rfl, C9_fit_transform_requires_fitted_instance specSVDEngine PCAState.init
    (.arr [[1]]) rfl⟩

/-- C10: with a stored scaler, a projection call on a plain numpy array — or
any projection call on a model fitted on a plain array, which therefore has
no recorded feature names — raises an attribute error instead of returning
coordinates, because `_scale` unconditionally reads `X.columns` and
`self.feature_names_in_`. -/
theorem C10_projection_requires_dataframes
    (st : PCAState) (sc : StandardScaler)
    (hfit : st.isFitted = true) (hsc : st.scaler_ = some sc) :
    (∀ rows ig, PCA.row_coordinates st (.arr rows) ig = .error .attributeError)
    ∧ (st.feature_names_in_ = none →
        ∀ d ig, PCA.row_coordinates st (.df d) ig = .error .attributeError) := by
  constructor
  · intro rows ig
    cases hnm : st.feature_names_in_ with
    | none =>
      cases ig <;>
        simp [PCA.row_coordinates, hfit, PCA.restrictInput, hnm, PCA.scale, hsc]
    | some names =>
      cases ig <;>
        simp [PCA.row_coordinates, hfit, PCA.restrictInput, hnm, PCA.scale, hsc]
  · intro hnone d ig
    cases ig <;>
      simp [PCA.row_coordinates, hfit, PCA.restrictInput, hnone, PCA.scale, hsc]

/-- Witness for C10: the theorem's hypotheses hold and its conclusions follow
on a model concretely fitted on a plain numpy array. -/
theorem C10_projection_requires_dataframes_witness :
    stArrFitted.isFitted = true
    ∧ stArrFitted.feature_names_in_ = none
    ∧ PCA.row_coordinates stArrFitted (.arr [[5, 6]]) true = .error .attributeError
    ∧ PCA.row_coordinates stArrFitted (.df { cols := ["q"], rows := [[7]] }) true
        = .error .attributeError :=
  ⟨rfl, rfl,
    (C10_projection_requires_dataframes stArrFitted
      (StandardScaler.fit true true [[1, 2], [3, 4]]) rfl rfl).1 [[5, 6]] true,
    (C10_projection_requires_dataframes stArrFitted
      (StandardScaler.fit true true [[1, 2], [3, 4]]) rfl rfl).2 rfl
      { cols := ["q"], rows := [[7]] } true⟩

/-- C2, evaluated at the failing input: `fit` on a concrete 2×2 dataframe
succeeds and stores the decomposition as `svd_`, but `inverse_transform`
reads the attribute `V_`, which no method of the source ever assigns, so it
raises an `AttributeError` on every fitted model instead of computing
`X · V` and reversing the scaler. -/
theorem C2_inverse_transform_always_raises :
    (PCA.fit specSVDEngine PCAState.init (.df dfTrain)).2 = none
    ∧ stFitted.isFitted = true
    ∧ stFitted.svd_.isSome = true
    ∧ stFitted.V_ = none
    ∧ PCA.inverse_transform stFitted [[1, 0]] = .error .attributeError :=
  ⟨rfl, rfl, rfl, rfl, rfl⟩

/-- C8, refuted at a concrete input: `fit` assigns `feature_names_in_`
*before* input validation, so when validation rejects the (empty) input the
call aborts but the attribute set during the failed fit remains observable —
the state is not unchanged. -/
theorem C8_counterexample_partial_mutation :
    PCAState.init.feature_names_in_ = none
    ∧ (PCA.fit specSVDEngine PCAState.init (.df dfEmpty)).2 = some .validation
    ∧ (PCA.fit specSVDEngine PCAState.init (.df dfEmpty)).1.feature_names_in_
        = some ["a", "b"] :=
  ⟨rfl, rfl, rfl⟩

/-- C8 as amended: a failed `fit` aborts with no result and the model remains
unfitted in the sense of the fitted-state check — `total_inertia_` (the
attribute `_check_is_fitted` tests) and `svd_` are assigned only after every
fallible step, so they keep their pre-call values — but attributes assigned
before the failing step (such as `feature_names_in_`) may be mutated. -/
theorem C8_amended_failed_fit_leaves_unfitted
    (engine : SVDEngine) (st : PCAState) (X : PyInput) (e : PyError)
    (h : (PCA.fit engine st X).2 = some e) :
    (PCA.fit engine st X).1.total_inertia_ = st.total_inertia_
    ∧ (PCA.fit engine st X).1.svd_ = st.svd_ := by
  unfold PCA.fit at h ⊢
  cases X with
  | df d =>
    cases hchk : (if st.check_input then checkArray (PyInput.toRows (.df d))
        else Except.ok ()) with
    | error e' => simp [hchk]
    | ok u =>
      cases hr : (st.rescale_with_mean || st.rescale_with_std) with
      | false =>
        cases heng : engine (PyInput.toRows (.df d)) st.n_components with
        | error e' => simp [hchk, hr, heng]
        | ok sv => simp [hchk, hr, heng] at h
      | true =>
        cases heng : (StandardScaler.fit st.rescale_with_mean st.rescale_with_std
            (PyInput.toRows (.df d))).transform (PyInput.toRows (.df d)) with
        | nil =>
          cases heng2 : engine [] st.n_components with
          | error e' => simp [hchk, hr, heng, heng2]
          | ok sv => simp [hchk, hr, heng, heng2] at h
        | cons a b =>
          cases heng2 : engine (a :: b) st.n_components with
          | error e' => simp [hchk, hr, heng, heng2]
          | ok sv => simp [hchk, hr, heng, heng2] at h
  | arr rows =>
    cases hchk : (if st.check_input then checkArray (PyInput.toRows (.arr rows))
        else Except.ok ()) with
    | error e' => simp [hchk]
    | ok u =>
      cases hr : (st.rescale_with_mean || st.rescale_with_std) with
      | false =>
        cases heng : engine (PyInput.toRows (.arr rows)) st.n_components with
        | error e' => simp [hchk, hr, heng]
        | ok sv => simp [hchk, hr, heng] at h
      | true =>
        cases heng : (StandardScaler.fit st.rescale_with_mean st.rescale_with_std
            (PyInput.toRows (.arr rows))).transform (PyInput.toRows (.arr rows)) with
        | nil =>
          cases heng2 : engine [] st.n_components with
          | error e' => simp [hchk, hr, heng, heng2]
          | ok sv => simp [hchk, hr, heng, heng2] at h
        | cons a b =>
          cases heng2 : engine (a :: b) st.n_components with
          | error e' => simp [hchk, hr, heng, heng2]
          | ok sv => simp [hchk, hr, heng, heng2] at h

/-- Witness for the amended C8: its hypothesis holds and its conclusion
follows at the concrete failing input. -/
theorem C8_amended_failed_fit_leaves_unfitted_witness :
    (PCA.fit specSVDEngine PCAState.init (.df dfEmpty)).2 = some PyError.validation
    ∧ ((PCA.fit specSVDEngine PCAState.init (.df dfEmpty)).1.total_inertia_
        = PCAState.init.total_inertia_
      ∧ (PCA.fit specSVDEngine PCAState.init (.df dfEmpty)).1.svd_
        = PCAState.init.svd_) :=
  ⟨rfl, C8_amended_failed_fit_leaves_unfitted specSVDEngine PCAState.init
    (.df dfEmpty) .validation rfl⟩

/-- C4, evaluated at the failing input: the MCA projection accessors re-run
`pd.get_dummies` on the supplied table, so the indicator columns come from
the *supplied* data's categories, not from the category set observed at fit
time: a supplementary row with the unseen category `c` produces the *new*
indicator column `x_c` (with a true entry, not all-zero), and the fit-time
indicator columns `x_a`, `x_b` are absent from the encoding altogether. -/
theorem C4_projection_reencodes_from_supplied_categories :
    (MCA.fit mcaFitTable).ca_fit_columns = ["x_a", "x_b"]
    ∧ (MCA.rowCoordinatesEncoding (MCA.fit mcaFitTable) mcaNewTable).cols = ["x_c"]
    ∧ "x_c" ∉ (MCA.fit mcaFitTable).ca_fit_columns
    ∧ "x_a" ∉ (MCA.rowCoordinatesEncoding (MCA.fit mcaFitTable) mcaNewTable).cols
    ∧ (MCA.rowCoordinatesEncoding (MCA.fit mcaFitTable) mcaNewTable).rows
        = [[true]] := by
  decide

end

end Prince
